import Mathlib

/-!
Shallow embedding of the chunk-processing engine of `src/src/gdalcubes.cpp`:
`chunk_processor_multithread_interruptible::apply`, the diagnostic buffers
`r_stderr_buf` / `error_handling_r`, and the progress reporter
`progress_simple_R`.
-/

namespace Gdalcubes

/-- The chunk-id sequence of the worker loop
`for (uint32_t i = it; i < c->count_chunks(); i += _nthreads)`
(gdalcubes.cpp:102), started at `i`.  The loop only runs inside a spawned
worker, hence with `0 < N`; the `0 < N` guard makes the recursion total. -/
def chunkIdsFrom (C N : Nat) (i : Nat) : List Nat :=
  if h : i < C ∧ 0 < N then i :: chunkIdsFrom C N (i + N) else []
termination_by C - i
decreasing_by omega

/-- Worker `k`'s chunk ids: the loop of gdalcubes.cpp:102 started at `i = k`. -/
def chunk_ids (C N k : Nat) : List Nat := chunkIdsFrom C N k

/-- What happens when one chunk `i` is materialized and processed
(gdalcubes.cpp:103-117).  `ok`: `read_chunk` and the callback `f` both
return normally.  `readErr s`: `c->read_chunk(i)` throws (a `std::string`
carrying `s`, or any other exception when `s = none`); the callback is not
invoked.  `callErr s`: the callback `f` is invoked and then throws. -/
inductive ChunkOutcome
  | ok
  | readErr (s : Option String)
  | callErr (s : Option String)
deriving DecidableEq

/-- The try/catch body for one chunk `i` (gdalcubes.cpp:103-117):
first component is `some i` when the callback was invoked for `i`,
second component is the `GCBS_ERROR` message recorded by the catch
handlers (`catch (std::string s)` logs `s` itself; `catch (...)` logs
`"unexpected exception while processing chunk " + std::to_string(i)`). -/
def processChunk (outcome : Nat → ChunkOutcome) (i : Nat) : Option Nat × Option String :=
  match outcome i with
  | .ok => (some i, none)
  | .readErr (some s) => (none, some s)
  | .readErr none => (none, some ("unexpected exception while processing chunk " ++ toString i))
  | .callErr (some s) => (some i, some s)
  | .callErr none => (some i, some ("unexpected exception while processing chunk " ++ toString i))

/-- Observable trace of one worker thread (the lambda of
gdalcubes.cpp:100-121): the chunk ids for which the callback `f` was
invoked, the `GCBS_ERROR` messages recorded, and the final value of
`interrupted_bythread[it]`. -/
structure WorkerTrace where
  called : List Nat
  logged : List String
  interrupted_bythread : Bool
deriving DecidableEq

/-- One worker's loop over its chunk-id list (gdalcubes.cpp:102-118).
The shared `interrupted` flag is written once (false to true) and read by
the worker once per iteration, before starting the chunk; the observations
are therefore monotone over the iterations, and we parameterize the worker
by `cutoff`, the number of leading iterations at which it observed
`interrupted == false`.  At an iteration past the cutoff the worker skips
the chunk and sets `interrupted_bythread[it] = true` (gdalcubes.cpp:108-110). -/
def runWorker (outcome : Nat → ChunkOutcome) : Nat → List Nat → WorkerTrace
  | _, [] => ⟨[], [], false⟩
  | 0, _ :: rest =>
    let t := runWorker outcome 0 rest
    ⟨t.called, t.logged, true⟩
  | cutoff + 1, i :: rest =>
    let t := runWorker outcome cutoff rest
    ⟨(processChunk outcome i).1.toList ++ t.called,
     (processChunk outcome i).2.toList ++ t.logged,
     t.interrupted_bythread⟩

/-- Result of `chunk_processor_multithread_interruptible::apply`
(gdalcubes.cpp:92-170): the traces of the `N` workers and the terminal
result (`.error` models the `throw std::string(...)` of line 168). -/
structure ApplyTrace where
  workers : List WorkerTrace
  result : Except String Unit

/-- Whether an `apply` run ended in a thrown error. -/
def ApplyTrace.throws (t : ApplyTrace) : Bool :=
  match t.result with
  | .error _ => true
  | .ok _ => false

/-- The whole of `apply` (gdalcubes.cpp:92-170): spawn workers `0..N-1`
on their round-robin chunk lists, then throw
`"computations have been interrupted by the user"` iff the shared
`interrupted` flag was set and some worker recorded
`interrupted_bythread` (lines 160-169).  `interrupted` is the final value
of the shared flag (it is one-shot: set at most once, never cleared);
`cutoff k` is worker `k`'s count of iterations that observed the flag
unset. -/
def applyModel (C N : Nat) (outcome : Nat → ChunkOutcome) (interrupted : Bool)
    (cutoff : Nat → Nat) : ApplyTrace :=
  let ws := (List.range N).map fun k => runWorker outcome (cutoff k) (chunk_ids C N k)
  let any_incomplete := ws.any fun w => w.interrupted_bythread
  ⟨ws, if interrupted && any_incomplete then
        .error "computations have been interrupted by the user"
      else .ok ()⟩

/-- Timing coherence of a run: a worker can observe the `interrupted`
flag set only if the flag was in fact set during the run (its final value
is `true`).  This is the only connection between the per-worker
observation cutoffs and the shared flag. -/
def Coherent (C N : Nat) (interrupted : Bool) (cutoff : Nat → Nat) : Prop :=
  interrupted = false → ∀ k, k < N → (chunk_ids C N k).length ≤ cutoff k

/-- All callback invocations of a run, across workers. -/
def allCalled (t : ApplyTrace) : List Nat :=
  (t.workers.map WorkerTrace.called).flatten

end Gdalcubes

namespace Gdalcubes

theorem mem_chunkIdsFrom (C N : Nat) (hN : 0 < N) (i j : Nat) :
    j ∈ chunkIdsFrom C N i ↔ (∃ m, j = i + m * N) ∧ j < C := by
  induction i using chunkIdsFrom.induct C N with
  | case1 i h ih =>
    rw [chunkIdsFrom, dif_pos h]
    simp only [List.mem_cons, ih]
    constructor
    · rintro (rfl | ⟨⟨m, rfl⟩, hj⟩)
      · exact ⟨⟨0, by omega⟩, h.1⟩
      · exact ⟨⟨m + 1, by ring⟩, hj⟩
    · rintro ⟨⟨m, rfl⟩, hj⟩
      cases m with
      | zero => left; omega
      | succ m => right; exact ⟨⟨m, by ring⟩, hj⟩
  | case2 i h =>
    rw [chunkIdsFrom, dif_neg h]
    simp only [List.not_mem_nil, false_iff]
    rintro ⟨⟨m, rfl⟩, hj⟩
    exact h ⟨by omega, hN⟩

theorem chunkIdsFrom_pairwise (C N : Nat) (i : Nat) :
    (chunkIdsFrom C N i).Pairwise (· < ·) := by
  induction i using chunkIdsFrom.induct C N with
  | case1 i h ih =>
    rw [chunkIdsFrom, dif_pos h]
    refine List.Pairwise.cons ?_ ih
    intro j hj
    rw [mem_chunkIdsFrom C N h.2] at hj
    obtain ⟨⟨m, rfl⟩, _⟩ := hj
    have : 0 < N := h.2
    omega
  | case2 i h =>
    rw [chunkIdsFrom, dif_neg h]
    exact List.Pairwise.nil

theorem chunk_ids_pairwise (C N k : Nat) : (chunk_ids C N k).Pairwise (· < ·) :=
  chunkIdsFrom_pairwise C N k

theorem chunk_ids_nodup (C N k : Nat) : (chunk_ids C N k).Nodup :=
  (chunk_ids_pairwise C N k).imp Nat.ne_of_lt

theorem mem_chunk_ids (C N : Nat) (hN : 0 < N) (k j : Nat) :
    j ∈ chunk_ids C N k ↔ (∃ m, j = k + m * N) ∧ j < C :=
  mem_chunkIdsFrom C N hN k j

theorem chunk_ids_lt (C N : Nat) (hN : 0 < N) (k j : Nat)
    (h : j ∈ chunk_ids C N k) : j < C :=
  ((mem_chunk_ids C N hN k j).mp h).2

theorem chunk_ids_disjoint (C N : Nat) (hN : 0 < N) (j k1 k2 : Nat)
    (h1 : k1 < N) (h2 : k2 < N)
    (m1 : j ∈ chunk_ids C N k1) (m2 : j ∈ chunk_ids C N k2) : k1 = k2 := by
  rw [mem_chunk_ids C N hN] at m1 m2
  obtain ⟨⟨a, rfl⟩, _⟩ := m1
  obtain ⟨⟨b, hb⟩, _⟩ := m2
  have e1 : (k1 + a * N) % N = k1 := by
    rw [Nat.add_mul_mod_self_right, Nat.mod_eq_of_lt h1]
  have e2 : (k2 + b * N) % N = k2 := by
    rw [Nat.add_mul_mod_self_right, Nat.mod_eq_of_lt h2]
  rw [hb, e2] at e1
  exact e1.symm

theorem chunk_ids_cover (C N : Nat) (hN : 0 < N) (j : Nat) :
    j < C ↔ ∃ k, k < N ∧ j ∈ chunk_ids C N k := by
  constructor
  · intro hj
    refine ⟨j % N, Nat.mod_lt j hN, ?_⟩
    rw [mem_chunk_ids C N hN]
    exact ⟨⟨j / N, (Nat.mod_add_div' j N).symm⟩, hj⟩
  · rintro ⟨k, hk, hm⟩
    exact chunk_ids_lt C N hN k j hm

/-- C1: for every number of workers `N ≥ 1` and every chunk count `C ≥ 0`,
the worker partitions of the loop `for (i = it; i < C; i += N)`
(gdalcubes.cpp:102) cover `{0, ..., C-1}` exactly: their union is the full
chunk range, they are pairwise disjoint, and every chunk id below `C`
belongs to exactly one worker's partition. -/
theorem c1_partition_exact (N C : Nat) (hN : 1 ≤ N) :
    (∀ j, j < C ↔ ∃ k, k < N ∧ j ∈ chunk_ids C N k) ∧
    (∀ j k1 k2, k1 < N → k2 < N →
      j ∈ chunk_ids C N k1 → j ∈ chunk_ids C N k2 → k1 = k2) ∧
    (∀ j, j < C → ∃! k, k < N ∧ j ∈ chunk_ids C N k) := by
  refine ⟨fun j => chunk_ids_cover C N hN j,
          fun j k1 k2 h1 h2 m1 m2 => chunk_ids_disjoint C N hN j k1 k2 h1 h2 m1 m2,
          fun j hj => ?_⟩
  obtain ⟨k, hk, hm⟩ := (chunk_ids_cover C N hN j).mp hj
  exact ⟨k, ⟨hk, hm⟩, fun k2 hk2 => chunk_ids_disjoint C N hN j k2 k hk2.1 hk hk2.2 hm⟩

/-- Witness for C1 at the spec's own example `C = 10`, `N = 3`
(partitions `{0,3,6,9}`, `{1,4,7}`, `{2,5,8}`). -/
theorem c1_partition_exact_witness :
    1 ≤ 3 ∧
    ((∀ j, j < 10 ↔ ∃ k, k < 3 ∧ j ∈ chunk_ids 10 3 k) ∧
     (∀ j k1 k2, k1 < 3 → k2 < 3 →
       j ∈ chunk_ids 10 3 k1 → j ∈ chunk_ids 10 3 k2 → k1 = k2) ∧
     (∀ j, j < 10 → ∃! k, k < 3 ∧ j ∈ chunk_ids 10 3 k)) :=
  ⟨by omega, c1_partition_exact 3 10 (by omega)⟩

end Gdalcubes

namespace Gdalcubes

theorem processChunk_fst (outcome : Nat → ChunkOutcome) (i : Nat) :
    (processChunk outcome i).1 = none ∨ (processChunk outcome i).1 = some i := by
  cases h : outcome i with
  | ok => simp [processChunk, h]
  | readErr s => cases s <;> simp [processChunk, h]
  | callErr s => cases s <;> simp [processChunk, h]

theorem runWorker_ibt (outcome : Nat → ChunkOutcome) (cutoff : Nat) (l : List Nat) :
    (runWorker outcome cutoff l).interrupted_bythread = true ↔ cutoff < l.length := by
  induction l generalizing cutoff with
  | nil => simp [runWorker]
  | cons i rest ih =>
    cases cutoff with
    | zero => simp [runWorker]
    | succ c =>
      simp only [runWorker, List.length_cons]
      rw [ih c]
      omega

theorem runWorker_called_all_ok (outcome : Nat → ChunkOutcome) (cutoff : Nat)
    (l : List Nat) (hc : l.length ≤ cutoff)
    (hok : ∀ i ∈ l, outcome i = ChunkOutcome.ok) :
    (runWorker outcome cutoff l).called = l := by
  induction l generalizing cutoff with
  | nil => simp [runWorker]
  | cons i rest ih =>
    cases cutoff with
    | zero => simp at hc
    | succ c =>
      have hi : outcome i = ChunkOutcome.ok := hok i (by simp)
      have hrest := ih c (by simpa using hc) (fun j hj => hok j (by simp [hj]))
      simp [runWorker, processChunk, hi, hrest]

theorem runWorker_called_sublist (outcome : Nat → ChunkOutcome) (cutoff : Nat)
    (l : List Nat) : (runWorker outcome cutoff l).called.Sublist l := by
  induction l generalizing cutoff with
  | nil => simp [runWorker]
  | cons i rest ih =>
    cases cutoff with
    | zero =>
      simp only [runWorker]
      exact (ih 0).cons i
    | succ c =>
      simp only [runWorker]
      rcases processChunk_fst outcome i with h | h <;> rw [h]
      · simpa using (ih c).cons i
      · simpa using (ih c).cons₂ i

theorem runWorker_called_take (outcome : Nat → ChunkOutcome) (cutoff : Nat)
    (l : List Nat) : ∀ x ∈ (runWorker outcome cutoff l).called, x ∈ l.take cutoff := by
  induction l generalizing cutoff with
  | nil => simp [runWorker]
  | cons i rest ih =>
    cases cutoff with
    | zero =>
      intro x hx
      simp only [runWorker] at hx
      have := ih 0 x hx
      simp at this
    | succ c =>
      intro x hx
      simp only [runWorker, List.mem_append] at hx
      simp only [List.take_succ_cons, List.mem_cons]
      rcases hx with hx | hx
      · rcases processChunk_fst outcome i with h | h <;> rw [h] at hx
        · simp at hx
        · simp at hx
          exact Or.inl hx
      · exact Or.inr (ih c x hx)

theorem runWorker_logged_mem (outcome : Nat → ChunkOutcome) (cutoff : Nat)
    (l : List Nat) (x : Nat) (hx : x ∈ l.take cutoff) (msg : String)
    (hmsg : (processChunk outcome x).2 = some msg) :
    msg ∈ (runWorker outcome cutoff l).logged := by
  induction l generalizing cutoff with
  | nil => simp at hx
  | cons i rest ih =>
    cases cutoff with
    | zero => simp at hx
    | succ c =>
      simp only [List.take_succ_cons, List.mem_cons] at hx
      rcases hx with rfl | hx
      · simp [runWorker, hmsg]
      · simp only [runWorker, List.mem_append]
        exact Or.inr (ih c hx)

theorem runWorker_called_mem (outcome : Nat → ChunkOutcome) (cutoff : Nat)
    (l : List Nat) (x : Nat) (hx : x ∈ l.take cutoff)
    (hcall : (processChunk outcome x).1 = some x) :
    x ∈ (runWorker outcome cutoff l).called := by
  induction l generalizing cutoff with
  | nil => simp at hx
  | cons i rest ih =>
    cases cutoff with
    | zero => simp at hx
    | succ c =>
      simp only [List.take_succ_cons, List.mem_cons] at hx
      rcases hx with rfl | hx
      · simp [runWorker, hcall]
      · simp only [runWorker, List.mem_append]
        exact Or.inr (ih c hx)

theorem throws_ite (ws : List WorkerTrace) (b : Bool) (msg : String) :
    (ApplyTrace.mk ws (if b then .error msg else .ok ())).throws = b := by
  cases b <;> simp [ApplyTrace.throws]

theorem applyModel_throws_iff (C N : Nat) (outcome : Nat → ChunkOutcome)
    (interrupted : Bool) (cutoff : Nat → Nat) :
    (applyModel C N outcome interrupted cutoff).throws = true ↔
      interrupted = true ∧ ∃ k, k < N ∧ cutoff k < (chunk_ids C N k).length := by
  simp only [applyModel]
  rw [throws_ite]
  simp [List.any_eq_true, List.mem_map, List.mem_range, runWorker_ibt]

end Gdalcubes

namespace Gdalcubes

/-- C2: `apply` throws the interruption error
(`"computations have been interrupted by the user"`, gdalcubes.cpp:167-168)
iff the cancellation flag was set during the run and at least one assigned
chunk was actually skipped (some worker's cutoff lies strictly inside its
chunk list); in particular, if every chunk had already started when
cancellation arrived (all cutoffs past the end), `apply` returns
successfully. -/
theorem c2_interrupt_error_iff (C N : Nat) (outcome : Nat → ChunkOutcome)
    (interrupted : Bool) (cutoff : Nat → Nat) :
    ((applyModel C N outcome interrupted cutoff).throws = true ↔
      interrupted = true ∧ ∃ k, k < N ∧ cutoff k < (chunk_ids C N k).length) ∧
    ((∀ k, k < N → (chunk_ids C N k).length ≤ cutoff k) →
      (applyModel C N outcome interrupted cutoff).throws = false) := by
  refine ⟨applyModel_throws_iff C N outcome interrupted cutoff, fun hall => ?_⟩
  cases hth : (applyModel C N outcome interrupted cutoff).throws with
  | false => rfl
  | true =>
    obtain ⟨_, k, hk, hlt⟩ :=
      (applyModel_throws_iff C N outcome interrupted cutoff).mp hth
    exact absurd hlt (not_lt.mpr (hall k hk))

/-- Witness for C2: `C = 5`, `N = 2`, cancellation flagged before any chunk
starts (both cutoffs 0) throws; with cutoffs past the end it does not. -/
theorem c2_interrupt_error_iff_witness :
    ((applyModel 5 2 (fun _ => ChunkOutcome.ok) true (fun _ => 0)).throws = true ↔
      true = true ∧ ∃ k, k < 2 ∧ (fun _ : Nat => 0) k < (chunk_ids 5 2 k).length) ∧
    ((∀ k, k < 2 → (chunk_ids 5 2 k).length ≤ (fun _ : Nat => 0) k) →
      (applyModel 5 2 (fun _ => ChunkOutcome.ok) true (fun _ => 0)).throws = false) :=
  c2_interrupt_error_iff 5 2 (fun _ => ChunkOutcome.ok) true (fun _ => 0)

end Gdalcubes

namespace Gdalcubes

theorem allCalled_no_cancel (C N : Nat) (outcome : Nat → ChunkOutcome)
    (interrupted : Bool) (cutoff : Nat → Nat)
    (hnc : ∀ k, k < N → (chunk_ids C N k).length ≤ cutoff k)
    (hok : ∀ i, i < C → outcome i = ChunkOutcome.ok) (hN : 1 ≤ N) :
    allCalled (applyModel C N outcome interrupted cutoff) =
      ((List.range N).map (chunk_ids C N)).flatten := by
  have hmap : (applyModel C N outcome interrupted cutoff).workers.map WorkerTrace.called
      = (List.range N).map (chunk_ids C N) := by
    simp only [applyModel, List.map_map]
    apply List.map_congr_left
    intro k hk
    rw [List.mem_range] at hk
    exact runWorker_called_all_ok outcome (cutoff k) (chunk_ids C N k) (hnc k hk)
      (fun j hj => hok j (chunk_ids_lt C N (by omega) k j hj))
  rw [allCalled, hmap]

theorem flatten_chunk_ids_nodup (C N : Nat) (hN : 1 ≤ N) :
    (((List.range N).map (chunk_ids C N)).flatten).Nodup := by
  rw [List.nodup_flatten]
  constructor
  · intro l hl
    rw [List.mem_map] at hl
    obtain ⟨k, _, rfl⟩ := hl
    exact chunk_ids_nodup C N k
  · rw [List.pairwise_map]
    have hr : (List.range N).Pairwise
        (fun k1 k2 => k1 < N ∧ k2 < N ∧ k1 ≠ k2) := by
      refine (List.pairwise_lt_range N).imp_of_mem ?_
      intro k1 k2 h1 h2 hlt
      rw [List.mem_range] at h1 h2
      exact ⟨h1, h2, Nat.ne_of_lt hlt⟩
    refine hr.imp ?_
    rintro k1 k2 ⟨h1, h2, hne⟩
    intro j hj1 hj2
    exact hne (chunk_ids_disjoint C N (by omega) j k1 k2 h1 h2 hj1 hj2)

/-- C3: with no cancellation and no failing chunk, `apply` returns
successfully and the callback is invoked exactly once for every chunk id in
`[0, C)` (and never for an id outside that range). -/
theorem c3_success_exactly_once (C N : Nat) (outcome : Nat → ChunkOutcome)
    (cutoff : Nat → Nat) (hN : 1 ≤ N)
    (hnc : ∀ k, k < N → (chunk_ids C N k).length ≤ cutoff k)
    (hok : ∀ i, i < C → outcome i = ChunkOutcome.ok) :
    (applyModel C N outcome false cutoff).throws = false ∧
    ∀ i, (allCalled (applyModel C N outcome false cutoff)).count i =
      if i < C then 1 else 0 := by
  constructor
  · cases hth : (applyModel C N outcome false cutoff).throws with
    | false => rfl
    | true =>
      obtain ⟨hfalse, _⟩ :=
        (applyModel_throws_iff C N outcome false cutoff).mp hth
      exact absurd hfalse (by simp)
  · intro i
    rw [allCalled_no_cancel C N outcome false cutoff hnc hok hN]
    by_cases hi : i < C
    · rw [if_pos hi]
      apply List.count_eq_one_of_mem (flatten_chunk_ids_nodup C N hN)
      rw [List.mem_flatten]
      obtain ⟨k, hk, hm⟩ := (chunk_ids_cover C N (by omega) i).mp hi
      exact ⟨chunk_ids C N k, List.mem_map_of_mem _ (List.mem_range.mpr hk), hm⟩
    · rw [if_neg hi, List.count_eq_zero]
      intro hmem
      rw [List.mem_flatten] at hmem
      obtain ⟨l, hl, hm⟩ := hmem
      rw [List.mem_map] at hl
      obtain ⟨k, _, rfl⟩ := hl
      exact hi (chunk_ids_lt C N (by omega) k i hm)

/-- Witness for C3 at the spec's example `C = 10`, `N = 3`: all 10 callback
invocations occur, `apply` returns success. -/
theorem c3_success_exactly_once_witness :
    1 ≤ 3 ∧
    (∀ k, k < 3 → (chunk_ids 10 3 k).length ≤ (fun _ : Nat => 10) k) ∧
    (∀ i, i < 10 → (fun _ : Nat => ChunkOutcome.ok) i = ChunkOutcome.ok) ∧
    ((applyModel 10 3 (fun _ => ChunkOutcome.ok) false (fun _ => 10)).throws = false ∧
     ∀ i, (allCalled (applyModel 10 3 (fun _ => ChunkOutcome.ok) false (fun _ => 10))).count i =
       if i < 10 then 1 else 0) := by
  have hnc : ∀ k, k < 3 → (chunk_ids 10 3 k).length ≤ (fun _ : Nat => 10) k := by
    intro k hk
    interval_cases k <;> simp [chunk_ids, chunkIdsFrom]
  exact ⟨by omega, hnc, fun i _ => rfl,
    c3_success_exactly_once 10 3 (fun _ => ChunkOutcome.ok) (fun _ => 10)
      (by omega) hnc (fun i _ => rfl)⟩

end Gdalcubes

namespace Gdalcubes

/-- C4: the flag is consulted once per chunk, before starting it (this is
the shape of `runWorker`: one observation per iteration, monotone because
the shared flag is one-shot).  Once worker `k` observes the flag set
(after `cutoff k` iterations), the callback is never invoked for any of its
remaining chunk ids, and if the flag was set before some assigned chunk
started, `apply` fails with the interruption error. -/
theorem c4_skip_after_observation (C N : Nat) (outcome : Nat → ChunkOutcome)
    (interrupted : Bool) (cutoff : Nat → Nat) (k : Nat)
    (hco : Coherent C N interrupted cutoff) (hk : k < N)
    (hcut : cutoff k < (chunk_ids C N k).length) :
    (∀ x ∈ (chunk_ids C N k).drop (cutoff k),
        x ∉ (runWorker outcome (cutoff k) (chunk_ids C N k)).called) ∧
    (applyModel C N outcome interrupted cutoff).throws = true := by
  constructor
  · intro x hxd hxc
    have hxt := runWorker_called_take outcome (cutoff k) (chunk_ids C N k) x hxc
    have hp := chunk_ids_pairwise C N k
    rw [← List.take_append_drop (cutoff k) (chunk_ids C N k),
      List.pairwise_append] at hp
    exact lt_irrefl x (hp.2.2 x hxt x hxd)
  · have hint : interrupted = true := by
      cases hi : interrupted with
      | true => rfl
      | false => exact absurd (hco hi k hk) (by omega)
    exact (applyModel_throws_iff C N outcome interrupted cutoff).mpr
      ⟨hint, k, hk, hcut⟩

/-- Witness for C4: `C = 5`, `N = 2`, flag set before any chunk starts
(cutoffs 0), worker 0: zero callbacks for its (entire) remaining partition
and the run throws. -/
theorem c4_skip_after_observation_witness :
    Coherent 5 2 true (fun _ => 0) ∧ 0 < 2 ∧
    (fun _ : Nat => 0) 0 < (chunk_ids 5 2 0).length ∧
    ((∀ x ∈ (chunk_ids 5 2 0).drop 0,
        x ∉ (runWorker (fun _ => ChunkOutcome.ok) 0 (chunk_ids 5 2 0)).called) ∧
     (applyModel 5 2 (fun _ => ChunkOutcome.ok) true (fun _ => 0)).throws = true) := by
  have hco : Coherent 5 2 true (fun _ => 0) := by
    intro h
    exact absurd h (by simp)
  have hlen : (fun _ : Nat => 0) 0 < (chunk_ids 5 2 0).length := by
    simp [chunk_ids, chunkIdsFrom]
  exact ⟨hco, by omega, hlen,
    c4_skip_after_observation 5 2 (fun _ => ChunkOutcome.ok) true (fun _ => 0) 0
      hco (by omega) hlen⟩

/-- C8: within one worker, the chunk ids for which the callback is invoked
occur in strictly increasing chunk-id order (the callback sequence is a
sublist of the worker's increasing loop sequence). -/
theorem c8_called_increasing (C N k : Nat) (outcome : Nat → ChunkOutcome)
    (cutoff : Nat) :
    ((runWorker outcome cutoff (chunk_ids C N k)).called).Pairwise (· < ·) :=
  (chunk_ids_pairwise C N k).sublist
    (runWorker_called_sublist outcome cutoff (chunk_ids C N k))

end Gdalcubes

namespace Gdalcubes

/-- `leadsWith p l` : `p` is an initial segment of `l`. -/
def leadsWith : List Char → List Char → Bool
  | [], _ => true
  | _ :: _, [] => false
  | p :: ps, c :: cs => p == c && leadsWith ps cs

/-- `hasInfix l pat` : `pat` occurs contiguously inside `l`. -/
def hasInfix (l : List Char) (pat : List Char) : Bool :=
  match l with
  | [] => pat.isEmpty
  | _ :: rest => leadsWith pat l || hasInfix rest pat

/-- A diagnostic message "references" chunk id `n` when the decimal
representation of `n` occurs in it. -/
def mentionsNat (s : String) (n : Nat) : Bool :=
  hasInfix s.data (toString n).data

theorem leadsWith_append (p t : List Char) : leadsWith p (p ++ t) = true := by
  induction p with
  | nil => rfl
  | cons c cs ih => simp [leadsWith, ih]

theorem hasInfix_suffix (a b : List Char) : hasInfix (a ++ b) b = true := by
  induction a with
  | nil =>
    have h := leadsWith_append b []
    rw [List.append_nil] at h
    cases b with
    | nil => rfl
    | cons c cs => simp [hasInfix, h]
  | cons c cs ih =>
    simp [hasInfix, ih]

theorem mentionsNat_append (a : String) (n : Nat) :
    mentionsNat (a ++ toString n) n = true := by
  rw [mentionsNat, String.data_append]
  exact hasInfix_suffix a.data (toString n).data

theorem runWorker_ibt_indep (o1 o2 : Nat → ChunkOutcome) (cutoff : Nat)
    (l : List Nat) :
    (runWorker o1 cutoff l).interrupted_bythread =
      (runWorker o2 cutoff l).interrupted_bythread := by
  induction l generalizing cutoff with
  | nil => cases cutoff <;> simp [runWorker]
  | cons i rest ih =>
    cases cutoff with
    | zero => simp only [runWorker]
    | succ c => simp only [runWorker]; exact ih c

theorem applyModel_result_indep (C N : Nat) (o1 o2 : Nat → ChunkOutcome)
    (interrupted : Bool) (cutoff : Nat → Nat) :
    (applyModel C N o1 interrupted cutoff).result =
      (applyModel C N o2 interrupted cutoff).result := by
  simp only [applyModel]
  have hiff : ∀ o : Nat → ChunkOutcome,
      (((List.range N).map fun k =>
        runWorker o (cutoff k) (chunk_ids C N k)).any
          fun w => w.interrupted_bythread) = true
      ↔ ∃ k, k < N ∧ cutoff k < (chunk_ids C N k).length := by
    intro o
    simp [List.any_eq_true, runWorker_ibt]
  have h : (((List.range N).map fun k =>
        runWorker o1 (cutoff k) (chunk_ids C N k)).any fun w => w.interrupted_bythread)
      = (((List.range N).map fun k =>
        runWorker o2 (cutoff k) (chunk_ids C N k)).any fun w => w.interrupted_bythread) := by
    rw [Bool.eq_iff_iff, hiff o1, hiff o2]
  rw [h]

end Gdalcubes

namespace Gdalcubes

/-- C5 (amended): a chunk-local failure on a started chunk `i` records a
diagnostic message (the thrown string itself for `catch (std::string)`,
which need not reference `i`; the line
`"unexpected exception while processing chunk " + i` — which does
reference `i` — for `catch (...)`), never aborts the run by itself (the
terminal result is the same as if every chunk succeeded), and does not
prevent the worker from processing its next assigned chunk `i + N`. -/
theorem c5_chunk_failure_logged_and_continue (C N k : Nat)
    (outcome : Nat → ChunkOutcome) (interrupted : Bool) (cutoff : Nat → Nat)
    (i : Nat) (hstart : i ∈ (chunk_ids C N k).take (cutoff k))
    (hfail : outcome i ≠ ChunkOutcome.ok) :
    (∃ msg, (processChunk outcome i).2 = some msg ∧
      msg ∈ (runWorker outcome (cutoff k) (chunk_ids C N k)).logged) ∧
    ((outcome i = ChunkOutcome.readErr none ∨ outcome i = ChunkOutcome.callErr none) →
      mentionsNat ("unexpected exception while processing chunk " ++ toString i) i
        = true ∧
      ("unexpected exception while processing chunk " ++ toString i) ∈
        (runWorker outcome (cutoff k) (chunk_ids C N k)).logged) ∧
    ((applyModel C N outcome interrupted cutoff).result =
      (applyModel C N (fun _ => ChunkOutcome.ok) interrupted cutoff).result) ∧
    (i + N ∈ (chunk_ids C N k).take (cutoff k) →
      (processChunk outcome (i + N)).1 = some (i + N) →
      i + N ∈ (runWorker outcome (cutoff k) (chunk_ids C N k)).called) := by
  refine ⟨?_, ?_, applyModel_result_indep C N outcome (fun _ => ChunkOutcome.ok)
      interrupted cutoff,
    fun hnext hcall => runWorker_called_mem outcome (cutoff k) (chunk_ids C N k)
      (i + N) hnext hcall⟩
  · have hmsg : ∃ msg, (processChunk outcome i).2 = some msg := by
      cases h : outcome i with
      | ok => exact absurd h hfail
      | readErr s => cases s <;> simp [processChunk, h]
      | callErr s => cases s <;> simp [processChunk, h]
    obtain ⟨msg, hmsg⟩ := hmsg
    exact ⟨msg, hmsg,
      runWorker_logged_mem outcome (cutoff k) (chunk_ids C N k) i hstart msg hmsg⟩
  · intro hcase
    refine ⟨mentionsNat_append "unexpected exception while processing chunk " i, ?_⟩
    have hmsg : (processChunk outcome i).2 =
        some ("unexpected exception while processing chunk " ++ toString i) := by
      rcases hcase with h | h <;> simp [processChunk, h]
    exact runWorker_logged_mem outcome (cutoff k) (chunk_ids C N k) i hstart _ hmsg

/-- The concrete outcome of the C5 counterexample: chunk 0 fails by
throwing the `std::string` `"oops"`, every other chunk succeeds. -/
def c5Outcome : Nat → ChunkOutcome :=
  fun i => if i = 0 then ChunkOutcome.readErr (some "oops") else ChunkOutcome.ok

/-- C5 as stated is false on the code: with `C = 2`, `N = 1`, no
cancellation, and chunk `0` failing by a thrown `std::string` `"oops"`
(gdalcubes.cpp:111-113 logs the string itself), the only recorded
diagnostic line is `"oops"`, which does not reference chunk id `0`; yet
the worker does continue with chunk `1`. -/
theorem c5_counterexample :
    (runWorker c5Outcome 2 (chunk_ids 2 1 0)).called = [1] ∧
    (runWorker c5Outcome 2 (chunk_ids 2 1 0)).logged = ["oops"] ∧
    ((runWorker c5Outcome 2 (chunk_ids 2 1 0)).logged.all
      fun s => !(mentionsNat s 0)) = true := by
  have h : chunk_ids 2 1 0 = [0, 1] := by simp [chunk_ids, chunkIdsFrom]
  rw [h]
  decide

/-- Witness for the amended C5 at `C = 2`, `N = 1`, chunk 0 failing with a
`catch (...)`-style exception. -/
theorem c5_chunk_failure_logged_and_continue_witness :
    (0 ∈ (chunk_ids 2 1 0).take 2 ∧
     (fun i => if i = 0 then ChunkOutcome.readErr none else ChunkOutcome.ok) 0
       ≠ ChunkOutcome.ok) ∧
    ((∃ msg, (processChunk
        (fun i => if i = 0 then ChunkOutcome.readErr none else ChunkOutcome.ok) 0).2
          = some msg ∧
      msg ∈ (runWorker
        (fun i => if i = 0 then ChunkOutcome.readErr none else ChunkOutcome.ok)
        2 (chunk_ids 2 1 0)).logged) ∧
    (((fun i => if i = 0 then ChunkOutcome.readErr none else ChunkOutcome.ok) 0
        = ChunkOutcome.readErr none ∨
      (fun i => if i = 0 then ChunkOutcome.readErr none else ChunkOutcome.ok) 0
        = ChunkOutcome.callErr none) →
      mentionsNat ("unexpected exception while processing chunk " ++ toString 0) 0
        = true ∧
      ("unexpected exception while processing chunk " ++ toString 0) ∈
        (runWorker
          (fun i => if i = 0 then ChunkOutcome.readErr none else ChunkOutcome.ok)
          2 (chunk_ids 2 1 0)).logged) ∧
    ((applyModel 2 1
        (fun i => if i = 0 then ChunkOutcome.readErr none else ChunkOutcome.ok)
        false (fun _ => 2)).result =
      (applyModel 2 1 (fun _ => ChunkOutcome.ok) false (fun _ => 2)).result) ∧
    (0 + 1 ∈ (chunk_ids 2 1 0).take 2 →
      (processChunk
        (fun i => if i = 0 then ChunkOutcome.readErr none else ChunkOutcome.ok)
        (0 + 1)).1 = some (0 + 1) →
      0 + 1 ∈ (runWorker
        (fun i => if i = 0 then ChunkOutcome.readErr none else ChunkOutcome.ok)
        2 (chunk_ids 2 1 0)).called)) := by
  have h : chunk_ids 2 1 0 = [0, 1] := by simp [chunk_ids, chunkIdsFrom]
  have hstart : 0 ∈ (chunk_ids 2 1 0).take 2 := by rw [h]; decide
  refine ⟨⟨hstart, by decide⟩, ?_⟩
  exact c5_chunk_failure_logged_and_continue 2 1 0
    (fun i => if i = 0 then ChunkOutcome.readErr none else ChunkOutcome.ok)
    false (fun _ => 2) 0 hstart (by decide)

end Gdalcubes

namespace Gdalcubes

/-- `r_stderr_buf::print` (gdalcubes.cpp:22-30): append `s` to the shared
stream; if the stream is nonempty and the calling thread is the R main
thread, emit the whole stream via `REprintf` and clear it.  Returns the new
buffer and the emission (if any). -/
def rPrint (isMain : Bool) (s : String) (buf : String) : String × Option String :=
  let b := buf ++ s
  if b ≠ "" ∧ isMain = true then ("", some b) else (b, none)

/-- Concatenation of emitted strings, in emission order. -/
def concatAll (l : List String) : String := l.foldr (fun a b => a ++ b) ""

/-- A sequence of `r_stderr_buf::print` calls, each tagged with whether the
calling context is the R main thread; returns the final buffer and all
visible emissions in order. -/
def runPrints : List (Bool × String) → String → String × List String
  | [], buf => (buf, [])
  | (m, s) :: rest, buf =>
    let pr := rPrint m s buf
    let rr := runPrints rest pr.1
    (rr.1, pr.2.toList ++ rr.2)

/-- State of `error_handling_r` (gdalcubes.cpp:177-289) together with the
`r_stderr_buf` stream it prints into: `_err_stream`, `_defer`, and the
stderr buffer. -/
structure ErrState where
  errStream : String
  deferFlag : Bool
  buf : String
deriving DecidableEq

/-- `error_handling_r::defer_output` (gdalcubes.cpp:183-187). -/
def defer_output (st : ErrState) : ErrState := { st with deferFlag := true }

/-- `error_handling_r::do_output` (gdalcubes.cpp:189-200): if `_err_stream`
is nonempty, hand it to `r_stderr_buf::print` and clear it; in all cases
set `_defer = false`. -/
def do_output (isMain : Bool) (st : ErrState) : ErrState × List String :=
  if st.errStream ≠ "" then
    let pr := rPrint isMain st.errStream st.buf
    (⟨"", false, pr.1⟩, pr.2.toList)
  else
    ({ st with deferFlag := false }, [])

/-- The `error_level` values referenced by the handlers
(gdalcubes.cpp:206-213, 227-232). -/
inductive error_level
  | ERRLVL_ERROR
  | ERRLVL_FATAL
  | ERRLVL_WARNING
  | ERRLVL_INFO
  | ERRLVL_DEBUG
deriving DecidableEq

/-- The `where_str` computed by `error_handling_r::debug`
(gdalcubes.cpp:205). -/
def where_str (wh : String) : String :=
  if wh = "" then "" else " [in " ++ wh ++ "]"

/-- The line `error_handling_r::debug` appends to `_err_stream` for a
message (gdalcubes.cpp:206-214); `std::endl` is `"\n"`.  The unused local
`code` of the source is omitted (it is computed and never used). -/
def debugLine (type : error_level) (msg wh : String) : String :=
  match type with
  | .ERRLVL_ERROR => "[ERROR] " ++ msg ++ where_str wh ++ "\n"
  | .ERRLVL_FATAL => "[ERROR] " ++ msg ++ where_str wh ++ "\n"
  | .ERRLVL_WARNING => "[WARNING]  " ++ msg ++ where_str wh ++ "\n"
  | .ERRLVL_INFO => "[INFO] " ++ msg ++ where_str wh ++ "\n"
  | .ERRLVL_DEBUG => "[DEBUG] " ++ msg ++ where_str wh ++ "\n"

/-- The line `error_handling_r::standard` appends to `_err_stream`
(gdalcubes.cpp:227-233): no `where` context, and no branch at all for
`ERRLVL_DEBUG` (nothing is appended). -/
def standardLine (type : error_level) (msg : String) : String :=
  match type with
  | .ERRLVL_ERROR => "[ERROR] " ++ msg ++ "\n"
  | .ERRLVL_FATAL => "[ERROR] " ++ msg ++ "\n"
  | .ERRLVL_WARNING => "[WARNING] " ++ msg ++ "\n"
  | .ERRLVL_INFO => "## " ++ msg ++ "\n"
  | .ERRLVL_DEBUG => ""

/-- Common tail of `error_handling_r::debug` / `::standard`
(gdalcubes.cpp:215-220, 234-239): append the formatted line to
`_err_stream`; if not deferred and the stream is nonempty, hand the stream
to `r_stderr_buf::print` and clear it. -/
def recordLine (isMain : Bool) (line : String) (st : ErrState) : ErrState × List String :=
  let st1 : ErrState := { st with errStream := st.errStream ++ line }
  if st1.deferFlag = false ∧ st1.errStream ≠ "" then
    let pr := rPrint isMain st1.errStream st1.buf
    (⟨"", st1.deferFlag, pr.1⟩, pr.2.toList)
  else (st1, [])

/-- `error_handling_r::standard` (gdalcubes.cpp:224-241). -/
def standard (isMain : Bool) (type : error_level) (msg wh : String)
    (st : ErrState) : ErrState × List String :=
  recordLine isMain (standardLine type msg) st

/-- `error_handling_r::debug` (gdalcubes.cpp:202-222). -/
def debug (isMain : Bool) (type : error_level) (msg wh : String)
    (st : ErrState) : ErrState × List String :=
  recordLine isMain (debugLine type msg wh) st

/-- State of `progress_simple_R` (gdalcubes.cpp:292-348): the stored
progress `_p` (a C++ `double`, modelled as an exact rational), plus the
diagnostic state it interacts with. -/
structure PState where
  p : ℚ
  err : ErrState
deriving DecidableEq

/-- C++ `int(x)` conversion of a real value: truncation toward zero. -/
def cppTrunc (q : ℚ) : Int := if 0 ≤ q then ⌊q⌋ else ⌈q⌉

/-- The progress-bar string built by `progress_simple_R::_set`
(gdalcubes.cpp:331-345): `int pp = 50 * _p`, then `pp` copies of `'='`,
one `'>'` (with `++i`), then spaces while `i < 50`, then
`"] " << int(p * 100.0) << " %\r"`. -/
def renderBar (p : ℚ) : String :=
  let pp := cppTrunc (50 * p)
  "[" ++ String.mk (List.replicate pp.toNat '=') ++ ">"
      ++ String.mk (List.replicate (50 - (pp.toNat + 1)) ' ')
      ++ "] " ++ toString (cppTrunc (100 * p)) ++ " %\r"

/-- A `r_stderr_buf::print` call made from the progress reporter. -/
def printP (isMain : Bool) (s : String) (st : PState) : PState × List String :=
  let pr := rPrint isMain s st.err.buf
  ({ st with err := { st.err with buf := pr.1 } }, pr.2.toList)

/-- `progress_simple_R::_set` (gdalcubes.cpp:327-347): defer diagnostic
output, store `p`, render the bar, hand it to `r_stderr_buf::print`. -/
def set_ (isMain : Bool) (p : ℚ) (st : PState) : PState × List String :=
  let st1 : PState := { st with err := defer_output st.err }
  let st2 : PState := { st1 with p := p }
  printP isMain (renderBar p) st2

/-- `progress_simple_R::set` (gdalcubes.cpp:295-299): `_set(p)` under the
lock. -/
def set (isMain : Bool) (p : ℚ) (st : PState) : PState × List String :=
  set_ isMain p st

/-- `progress_simple_R::increment` (gdalcubes.cpp:301-305):
`_set(_p + dp)` under the lock. -/
def increment (isMain : Bool) (dp : ℚ) (st : PState) : PState × List String :=
  set_ isMain (st.p + dp) st

/-- `progress_simple_R::finalize` (gdalcubes.cpp:306-314): `_set(1)`, print
a line break, then `error_handling_r::do_output()`. -/
def finalize (isMain : Bool) (st : PState) : PState × List String :=
  let r1 := set_ isMain 1 st
  let r2 := printP isMain "\n" r1.1
  let r3 := do_output isMain r2.1.err
  (({ r2.1 with err := r3.1 } : PState), r1.2 ++ r2.2 ++ r3.2)

/-- The bar portion of a rendered frame: everything up to and including
the closing `']'`. -/
def barPart (s : String) : String :=
  String.mk (s.data.takeWhile (fun c => c != ']') ++ [']'])

end Gdalcubes

namespace Gdalcubes

theorem concatAll_cons (a : String) (l : List String) :
    concatAll (a :: l) = a ++ concatAll l := rfl

theorem concatAll_nil : concatAll [] = "" := rfl

theorem string_append_assoc (a b c : String) : a ++ b ++ c = a ++ (b ++ c) := by
  apply String.ext
  simp [String.data_append]

theorem string_append_empty (a : String) : a ++ "" = a := by
  apply String.ext
  simp [String.data_append]

theorem string_empty_append (a : String) : "" ++ a = a := by
  apply String.ext
  simp [String.data_append]

/-- C7: visible emission through `r_stderr_buf::print` happens only on the
main thread: a call from another thread appends to the shared buffer and
emits nothing; a main-thread call emits the entire buffered content
(including its own payload) at once; and over any sequence of calls, the
concatenation of all visible emissions followed by the residual buffer
equals the initial buffer followed by all payloads in arrival order — the
consumer observes exactly the arrival order. -/
theorem c7_single_consumer_order (ws : List (Bool × String)) (buf s : String) :
    ((rPrint false s buf).1 = buf ++ s ∧ (rPrint false s buf).2 = none) ∧
    (buf ++ s ≠ "" →
      (rPrint true s buf).1 = "" ∧ (rPrint true s buf).2 = some (buf ++ s)) ∧
    (concatAll (runPrints ws buf).2 ++ (runPrints ws buf).1 =
      buf ++ concatAll (ws.map fun w => w.2)) := by
  refine ⟨by simp [rPrint], fun h => by simp [rPrint, h], ?_⟩
  induction ws generalizing buf with
  | nil => simp [runPrints, concatAll_nil, string_append_empty, string_empty_append]
  | cons w rest ih =>
    obtain ⟨m, s'⟩ := w
    simp only [runPrints, rPrint, List.map_cons, concatAll_cons]
    by_cases h : buf ++ s' ≠ "" ∧ m = true
    · rw [if_pos h]
      simp only [Option.toList_some, List.singleton_append, concatAll_cons]
      rw [string_append_assoc (buf ++ s'), ih "", string_empty_append,
        string_append_assoc]
    · rw [if_neg h]
      simp only [Option.toList_none, List.nil_append]
      rw [ih (buf ++ s'), string_append_assoc]

/-- Witness for C7: one non-main write buffers `"a"`, a later main write
emits `"ab"` whole; arrival order is preserved. -/
theorem c7_single_consumer_order_witness :
    (((rPrint false "b" "a").1 = "a" ++ "b" ∧ (rPrint false "b" "a").2 = none) ∧
    ("a" ++ "b" ≠ "" →
      (rPrint true "b" "a").1 = "" ∧ (rPrint true "b" "a").2 = some ("a" ++ "b")) ∧
    (concatAll (runPrints [(false, "a"), (true, "b")] "a").2 ++
        (runPrints [(false, "a"), (true, "b")] "a").1 =
      "a" ++ concatAll ([(false, "a"), (true, "b")].map fun w => w.2))) ∧
    concatAll (runPrints [(false, "a"), (true, "b")] "").2 = "ab" := by
  refine ⟨c7_single_consumer_order [(false, "a"), (true, "b")] "a" "b", ?_⟩
  decide

end Gdalcubes

namespace Gdalcubes

theorem string_append_ne_empty_left (a b : String) (ha : a ≠ "") : a ++ b ≠ "" := by
  intro h
  apply ha
  apply String.ext
  have hd := congrArg String.data h
  rw [String.data_append] at hd
  exact (List.append_eq_nil.mp hd).1

theorem string_append_ne_empty_right (a b : String) (hb : b ≠ "") : a ++ b ≠ "" := by
  intro h
  apply hb
  apply String.ext
  have hd := congrArg String.data h
  rw [String.data_append] at hd
  exact (List.append_eq_nil.mp hd).2

/-- C10: under the standard severity filter, an `ERRLVL_DEBUG` message
appends nothing to `_err_stream` (gdalcubes.cpp:227-233 has no branch for
it), so on a fresh channel state nothing is recorded or emitted; the debug
handler records the same message prefixed with the `[DEBUG]` tag
(gdalcubes.cpp:212-213), and on the consumer thread it is emitted. -/
theorem c10_debug_level_discarded (isMain : Bool) (msg wh : String) :
    standardLine error_level.ERRLVL_DEBUG msg = "" ∧
    standard isMain error_level.ERRLVL_DEBUG msg wh ⟨"", false, ""⟩ =
      (⟨"", false, ""⟩, []) ∧
    debugLine error_level.ERRLVL_DEBUG msg wh =
      "[DEBUG] " ++ msg ++ where_str wh ++ "\n" ∧
    (debug true error_level.ERRLVL_DEBUG msg wh ⟨"", false, ""⟩).2 =
      ["[DEBUG] " ++ msg ++ where_str wh ++ "\n"] := by
  refine ⟨rfl, ?_, rfl, ?_⟩
  · simp [standard, recordLine, standardLine, string_append_empty]
  · have hne : ("[DEBUG] " ++ msg ++ where_str wh ++ "\n") ≠ "" := by
      apply string_append_ne_empty_left
      apply string_append_ne_empty_left
      apply string_append_ne_empty_left
      decide
    simp [debug, recordLine, debugLine, rPrint, string_empty_append, hne]

end Gdalcubes

namespace Gdalcubes

theorem cppTrunc_fifty : cppTrunc (50 * (1:ℚ)) = 50 := by norm_num [cppTrunc]

theorem cppTrunc_hundred : cppTrunc (100 * (1:ℚ)) = 100 := by norm_num [cppTrunc]

theorem renderBar_one_ne_empty : renderBar 1 ≠ "" := by
  simp only [renderBar, cppTrunc_fifty, cppTrunc_hundred]
  decide

theorem renderBar_one_has_100 :
    hasInfix (renderBar 1).data ("100 %").data = true := by
  simp only [renderBar, cppTrunc_fifty, cppTrunc_hundred]
  decide

/-- C6: `finalize()` (gdalcubes.cpp:306-314) forces the stored value to 1,
renders a final frame that shows `100 %`, emits a trailing line break, and
unconditionally flushes the diagnostic stream and clears deferred mode
(via `do_output`), whatever the prior defer state was; on the consumer
(main) thread everything buffered becomes visible and the buffer ends
empty. -/
theorem c6_finalize_flushes (isMain : Bool) (st : PState) :
    (finalize isMain st).1.p = 1 ∧
    hasInfix (renderBar 1).data ("100 %").data = true ∧
    (finalize isMain st).1.err.deferFlag = false ∧
    (finalize isMain st).1.err.errStream = "" ∧
    (concatAll (finalize isMain st).2 ++ (finalize isMain st).1.err.buf =
      st.err.buf ++ renderBar 1 ++ "\n" ++ st.err.errStream) ∧
    (finalize true st).1.err.buf = "" := by
  have hb1 : ∀ b : String, b ++ renderBar 1 ≠ "" :=
    fun b => string_append_ne_empty_right b _ renderBar_one_ne_empty
  have hnl : ∀ b : String, b ++ "\n" ≠ "" :=
    fun b => string_append_ne_empty_right b _ (by decide)
  refine ⟨?_, renderBar_one_has_100, ?_, ?_, ?_, ?_⟩
  · cases isMain <;> by_cases he : st.err.errStream = "" <;>
      simp [finalize, set_, printP, rPrint, do_output, defer_output, he,
        hb1, hnl, string_empty_append]
  · cases isMain <;> by_cases he : st.err.errStream = "" <;>
      simp [finalize, set_, printP, rPrint, do_output, defer_output, he,
        hb1, hnl, string_empty_append]
  · cases isMain <;> by_cases he : st.err.errStream = "" <;>
      simp [finalize, set_, printP, rPrint, do_output, defer_output, he,
        hb1, hnl, string_empty_append]
  · cases isMain <;> by_cases he : st.err.errStream = "" <;>
      simp [finalize, set_, printP, rPrint, do_output, defer_output, he,
        hb1, hnl, concatAll_cons, concatAll_nil, string_empty_append,
        string_append_empty, string_append_assoc]
  · by_cases he : st.err.errStream = "" <;>
      simp [finalize, set_, printP, rPrint, do_output, defer_output, he,
        hb1, hnl, string_empty_append]

end Gdalcubes

namespace Gdalcubes

theorem takeWhile_all_append (q : Char → Bool) (l1 l2 : List Char) (c0 : Char)
    (h : ∀ c ∈ l1, q c = true) (hc : q c0 = false) :
    (l1 ++ c0 :: l2).takeWhile q = l1 := by
  induction l1 with
  | nil => simp [List.takeWhile_cons, hc]
  | cons a as ih =>
    have ha : q a = true := h a (by simp)
    simp only [List.cons_append, List.takeWhile_cons, ha, if_true]
    rw [ih (fun c hcm => h c (by simp [hcm]))]

theorem renderBar_data (p : ℚ) :
    (renderBar p).data =
      ('[' :: (List.replicate (cppTrunc (50 * p)).toNat '=' ++
        '>' :: List.replicate (50 - ((cppTrunc (50 * p)).toNat + 1)) ' ')) ++
      ']' :: (' ' :: ((toString (cppTrunc (100 * p))).data ++ [' ', '%', '\r'])) := by
  have hlb : ("[" : String).data = ['['] := rfl
  have hgt : (">" : String).data = ['>'] := rfl
  have hrb : ("] " : String).data = [']', ' '] := rfl
  have hpc : (" %\r" : String).data = [' ', '%', '\r'] := rfl
  have hmk : ∀ l : List Char, (String.mk l).data = l := fun _ => rfl
  simp only [renderBar, String.data_append, hlb, hgt, hrb, hpc, hmk]
  simp [List.append_assoc]

theorem barPart_renderBar_length (p : ℚ) :
    (barPart (renderBar p)).length =
      ((cppTrunc (50 * p)).toNat + (50 - ((cppTrunc (50 * p)).toNat + 1))) + 3 := by
  rw [barPart, renderBar_data]
  rw [takeWhile_all_append]
  · have hmk : ∀ l : List Char, (String.mk l).length = l.length := fun _ => rfl
    simp [hmk, List.length_append]
    omega
  · intro c hc
    simp only [List.mem_cons, List.mem_append] at hc
    rcases hc with rfl | hcm | rfl | hcm
    · decide
    · rw [List.eq_of_mem_replicate hcm]; decide
    · decide
    · rw [List.eq_of_mem_replicate hcm]; decide
  · decide

end Gdalcubes

namespace Gdalcubes

/-- C9 (amended): `set(p)` defers diagnostics, stores `p`, renders the bar
from the freshly stored value, and hands the rendered string to the output
buffer (`increment(dp)` does the same with `_p + dp`).  The bracketed bar
portion has the same total width — 52 characters — for every `p` in
`[0, 1)`, but is one character wider (53) at `p = 1`, because `_set`
prints `int(50*p)` `'='` signs, one `'>'`, and pads with spaces only up to
column 50 (gdalcubes.cpp:331-344). -/
theorem c9_set_defers_stores_renders (isMain : Bool) (p : ℚ) (st : PState)
    (h0 : 0 ≤ p) (h1 : p ≤ 1) :
    (set isMain p st).1.err.deferFlag = true ∧
    (set isMain p st).1.p = p ∧
    (concatAll (set isMain p st).2 ++ (set isMain p st).1.err.buf =
      st.err.buf ++ renderBar p) ∧
    (∀ dp, increment isMain dp st = set isMain (st.p + dp) st) ∧
    (p < 1 → (barPart (renderBar p)).length = 52) ∧
    (p = 1 → (barPart (renderBar p)).length = 53) := by
  refine ⟨?_, ?_, ?_, fun dp => rfl, ?_, ?_⟩
  · simp [set, set_, printP, defer_output]
  · simp [set, set_, printP, defer_output]
  · cases isMain <;> by_cases hb : st.err.buf ++ renderBar p ≠ "" <;>
      simp [set, set_, printP, rPrint, defer_output, hb, concatAll_cons,
        concatAll_nil, string_append_empty, string_empty_append]
  · intro hlt
    have hnn : (0:ℚ) ≤ 50 * p := by positivity
    have hfl : cppTrunc (50 * p) = ⌊50 * p⌋ := by rw [cppTrunc, if_pos hnn]
    have hup : ⌊50 * p⌋ < 50 := by
      rw [Int.floor_lt]
      push_cast
      linarith
    have hlo : (0:ℤ) ≤ ⌊50 * p⌋ := Int.floor_nonneg.mpr hnn
    rw [barPart_renderBar_length, hfl]
    omega
  · intro heq
    subst heq
    rw [barPart_renderBar_length, cppTrunc_fifty]
    decide

/-- C9 is false as stated: the rendered bar does not have the same total
width for every `p` in `[0, 1]` — at `p = 0` the bracketed bar is 52
characters, at `p = 1` it is 53. -/
theorem c9_counterexample :
    (barPart (renderBar 0)).length = 52 ∧
    (barPart (renderBar 1)).length = 53 ∧
    (barPart (renderBar 0)).length ≠ (barPart (renderBar 1)).length := by
  have hz : cppTrunc (50 * (0:ℚ)) = 0 := by norm_num [cppTrunc]
  have h52 : (barPart (renderBar 0)).length = 52 := by
    rw [barPart_renderBar_length, hz]
    decide
  have h53 : (barPart (renderBar 1)).length = 53 := by
    rw [barPart_renderBar_length, cppTrunc_fifty]
    decide
  exact ⟨h52, h53, by omega⟩

/-- Witness for the amended C9 at `isMain = true`, `p = 1`, empty state. -/
theorem c9_set_defers_stores_renders_witness :
    (0:ℚ) ≤ 1 ∧ (1:ℚ) ≤ 1 ∧
    ((set true 1 ⟨0, ⟨"", false, ""⟩⟩).1.err.deferFlag = true ∧
     (set true 1 ⟨0, ⟨"", false, ""⟩⟩).1.p = 1 ∧
     (concatAll (set true 1 ⟨0, ⟨"", false, ""⟩⟩).2 ++
        (set true 1 ⟨0, ⟨"", false, ""⟩⟩).1.err.buf =
      (⟨0, ⟨"", false, ""⟩⟩ : PState).err.buf ++ renderBar 1) ∧
     (∀ dp, increment true dp ⟨0, ⟨"", false, ""⟩⟩ =
        set true ((⟨0, ⟨"", false, ""⟩⟩ : PState).p + dp) ⟨0, ⟨"", false, ""⟩⟩) ∧
     ((1:ℚ) < 1 → (barPart (renderBar 1)).length = 52) ∧
     ((1:ℚ) = 1 → (barPart (renderBar 1)).length = 53)) :=
  ⟨zero_le_one, le_refl 1,
    c9_set_defers_stores_renders true 1 ⟨0, ⟨"", false, ""⟩⟩ zero_le_one (le_refl 1)⟩

end Gdalcubes
